import Mathlib

/-
Verification of the LEAF audio DSP library (headers `leaf-analysis.h` and
`leaf-oscillators.h`).

The repository ships only the header files; every function body lives in
`.c` files that are not part of the source tree.  Struct layouts and the
numeric constants (`MAXOVERLAP`, `INITVSTAKEN`, `ENV_WINDOW_SIZE`,
`SNAC_FRAME_SIZE`, `DEFBIAS`, `DEFMINRMS`, `SEEK`, `FILLEN`, ...) are
embedded directly from the headers.  The behaviour of the SNAC period
detector, the envelope followers, the EnvPD estimator and the
phase-accumulator oscillators is modelled from the specification, which
describes each algorithm step by step; every such definition carries a
doc comment starting with `Modelled from the spec:`.

Float samples are modelled as exact rationals.  The normalized
autocorrelation r(k) = S(k) / sqrt(E0(k) * Ek(k)) is irrational, so the
executable model works with the order-isomorphic encoding
q(k) = r(k) * |r(k)| (a signed square), which is exact rational
arithmetic; bridge theorems relate q(k) to the sqrt-normalized form over
the reals.
-/

/-! ## Constants from leaf-analysis.h and leaf-oscillators.h -/

/-- `#define MAXOVERLAP 32` (leaf-analysis.h). -/
def MAXOVERLAP : ℕ := 32

/-- `#define INITVSTAKEN 64` (leaf-analysis.h). -/
def INITVSTAKEN : ℕ := 64

/-- `#define ENV_WINDOW_SIZE 1024` (leaf-analysis.h). -/
def ENV_WINDOW_SIZE : ℕ := 1024

/-- `#define SNAC_FRAME_SIZE 1024` (leaf-analysis.h). -/
def SNAC_FRAME_SIZE : ℕ := 1024

/-- `#define DEFBIAS 0.2f` (leaf-analysis.h). -/
def DEFBIAS : ℚ := 1/5

/-- `#define DEFMINRMS 0.003f` (leaf-analysis.h). -/
def DEFMINRMS : ℚ := 3/1000

/-- `#define FILLEN 256` (leaf-oscillators.h). -/
def FILLEN : ℕ := 256

/-! ## Exact-rational sample arithmetic -/

/-- Sum of squares of a list of samples. -/
def sumsq : List ℚ → ℚ
  | [] => 0
  | x :: xs => x ^ 2 + sumsq xs

/-- Dot product of two sample lists, truncated to the shorter length. -/
def dot : List ℚ → List ℚ → ℚ
  | x :: xs, y :: ys => x * y + dot xs ys
  | _, _ => 0

theorem sumsq_nonneg (xs : List ℚ) : 0 ≤ sumsq xs := by
  induction xs with
  | nil => simp [sumsq]
  | cons x xs ih => simpa [sumsq] using add_nonneg (sq_nonneg x) ih

/-! ## SNAC period detector (modelled from the spec; leaf-analysis.c is
absent from src/, the header only declares `tSNAC_ioSamples` etc.) -/

/-- Modelled from the spec: lag-`k` autocorrelation numerator
`Σ_i x[i]·x[i+k]` used by the SNAC analysis pass. -/
def sumprod (frame : List ℚ) (k : ℕ) : ℚ :=
  dot (frame.take (frame.length - k)) (frame.drop k)

/-- Modelled from the spec: energy `Σ_i x[i]²` of the un-shifted segment
entering the lag-`k` correlation. -/
def energy0 (frame : List ℚ) (k : ℕ) : ℚ := sumsq (frame.take (frame.length - k))

/-- Modelled from the spec: energy `Σ_i x[i+k]²` of the shifted segment
entering the lag-`k` correlation. -/
def energyK (frame : List ℚ) (k : ℕ) : ℚ := sumsq (frame.drop k)

/-- Modelled from the spec: exact-rational, order-isomorphic encoding of
the normalized autocorrelation.  `snacQ frame k = r(k) * |r(k)|` where
`r(k) = Σ x[i]x[i+k] / sqrt(Σx[i]² · Σx[i+k]²)`; comparisons between
`snacQ` values agree with comparisons between `r` values because
`t ↦ t*|t|` is strictly monotone. -/
def snacQ (frame : List ℚ) (k : ℕ) : ℚ :=
  if energy0 frame k * energyK frame k = 0 then 0
  else sumprod frame k * |sumprod frame k| / (energy0 frame k * energyK frame k)

/-- The normalized autocorrelation of the spec,
`r(k) = Σ x[i]x[i+k] / sqrt(Σx[i]² · Σx[i+k]²)`, over the reals. -/
noncomputable def snacACF (frame : List ℚ) (k : ℕ) : ℝ :=
  (sumprod frame k : ℝ) / Real.sqrt ((energy0 frame k : ℝ) * (energyK frame k : ℝ))

/-- Modelled from the spec: linear lag-bias weight that discounts larger
lags by `biasfactor` (clamped below at 0 so the weight is never negative). -/
def snacWeight (bias : ℚ) (n k : ℕ) : ℚ := max 0 (1 - bias * k / n)

/-- Modelled from the spec: the bias-corrected correlation value at lag
`k`, in the signed-square encoding: weights multiply `r`, so their
squares multiply `q = r*|r|`. -/
def snacBiased (frame : List ℚ) (bias : ℚ) (k : ℕ) : ℚ :=
  snacWeight bias frame.length k ^ 2 * snacQ frame k

/-- Modelled from the spec: the fidelity floor a candidate peak must
exceed.  The spec names the floor but gives no value; the model uses 0
(any strictly positive correlation qualifies). -/
def snacFidelityFloor : ℚ := 0

/-- A lag `i` qualifies as a peak: its value is above the floor and it is
a local maximum of the (signed-square encoded) bias-corrected
correlation. -/
def snacQualifies (v : ℕ → ℚ) (fl : ℚ) (i : ℕ) : Prop :=
  fl < v i ∧ v (i - 1) ≤ v i ∧ v (i + 1) ≤ v i

instance (v : ℕ → ℚ) (fl : ℚ) (i : ℕ) : Decidable (snacQualifies v fl i) := by
  unfold snacQualifies; infer_instance

/-- Modelled from the spec: skip the initial descending slope after the
trivial zero-lag peak (fuel-bounded recursion). -/
def skipDescent (v : ℕ → ℚ) : ℕ → ℕ → ℕ
  | 0, i => i
  | fuel + 1, i => if v (i + 1) < v i then skipDescent v fuel (i + 1) else i

/-- Modelled from the spec: first qualifying peak at or after index `i`,
strictly before index `last` (fuel-bounded recursion). -/
def findFirstPeak (v : ℕ → ℚ) (fl : ℚ) (last : ℕ) : ℕ → ℕ → Option ℕ
  | 0, _ => none
  | fuel + 1, i =>
    if last ≤ i then none
    else if snacQualifies v fl i then some i
    else findFirstPeak v fl last fuel (i + 1)

/-- Modelled from the spec: parabolic interpolation of the integer peak
index `i` from the correlation values at `i-1`, `i`, `i+1`. -/
def parabolicInterp (v : ℕ → ℚ) (i : ℕ) : ℚ :=
  if v (i - 1) - 2 * v i + v (i + 1) = 0 then (i : ℚ)
  else (i : ℚ) + (v (i - 1) - v (i + 1)) / (2 * (v (i - 1) - 2 * v i + v (i + 1)))

/-- State of struct `_tSNAC` (leaf-analysis.h), with float samples
modelled as rationals.  `fidelity` is real-valued because the analysis
pass stores a square root there. -/
structure SnacState where
  inputbuf : List ℚ
  processbuf : List ℚ
  timeindex : ℕ
  framesize : ℕ
  overlap : ℕ
  periodindex : ℕ
  periodlength : ℚ
  fidelity : ℝ
  biasfactor : ℚ
  minrms : ℚ

/-- Search-range cap `framesize * SEEK` with `SEEK = 0.85f = 17/20`
(leaf-analysis.h), as a natural floor. -/
def snacSeekLen (n : ℕ) : ℕ := n * 17 / 20

/-- The bias-corrected correlation values an analysis pass works on. -/
def snacVals (s : SnacState) : ℕ → ℚ := snacBiased s.processbuf s.biasfactor

/-- Where the peak search starts: after lag 0 and the initial descending
slope. -/
def snacStart (s : SnacState) : ℕ :=
  skipDescent (snacVals s) (snacSeekLen s.processbuf.length) 1

/-- The peak the analysis pass selects, if any. -/
def snacPeak (s : SnacState) : Option ℕ :=
  findFirstPeak (snacVals s) (snacFidelityFloor ^ 2) (snacSeekLen s.processbuf.length)
    (snacSeekLen s.processbuf.length) (snacStart s)

/-- Modelled from the spec: one complete SNAC analysis pass over
`processbuf` (the body of `tSNAC_analyzeframe`, invoked by
`tSNAC_ioSamples`, is absent from src/).  If the short-term RMS is below
`minrms` the pass forces `fidelity` to 0 and leaves the period estimate
untouched; otherwise it selects the first qualifying peak of the
bias-corrected normalized autocorrelation, refines it by parabolic
interpolation, and stores the peak's correlation value as `fidelity`. -/
noncomputable def tSNAC_analyzeframe (s : SnacState) : SnacState :=
  if sumsq s.processbuf < s.minrms ^ 2 * (s.processbuf.length : ℚ) then
    { s with fidelity := 0 }
  else
    match snacPeak s with
    | none => { s with fidelity := 0 }
    | some i =>
      { s with periodindex := i,
               periodlength := parabolicInterp (snacVals s) i,
               fidelity := Real.sqrt (max 0 ((snacVals s i : ℚ) : ℝ)) }

/-- Modelled from the spec: feed one sample; the analysis buffer shifts
by one, and once `framesize/overlap` new samples have accumulated the
buffer is copied to `processbuf` and one analysis pass runs. -/
noncomputable def tSNAC_ioStep (s : SnacState) (x : ℚ) : SnacState :=
  if s.timeindex + 1 = s.framesize / s.overlap then
    tSNAC_analyzeframe
      { s with inputbuf := s.inputbuf.drop 1 ++ [x],
               processbuf := s.inputbuf.drop 1 ++ [x],
               timeindex := 0 }
  else
    { s with inputbuf := s.inputbuf.drop 1 ++ [x], timeindex := s.timeindex + 1 }

/-- Modelled from the spec: `tSNAC_ioSamples` feeds `size` new samples,
running one analysis pass per completed hop. -/
noncomputable def tSNAC_ioSamples (s : SnacState) (ins : List ℚ) : SnacState :=
  ins.foldl tSNAC_ioStep s

/-- Modelled from the spec: overlap arguments outside `[1, MAXOVERLAP]`
are clamped to the nearest valid value. -/
def clampOverlap (lap : ℤ) : ℕ := (max 1 (min lap (MAXOVERLAP : ℤ))).toNat

/-- Modelled from the spec: `tSNAC_setOverlap` stores the clamped overlap. -/
def tSNAC_setOverlap (s : SnacState) (lap : ℤ) : SnacState :=
  { s with overlap := clampOverlap lap }

/-- Modelled from the spec: `tSNAC_setBias` stores the bias factor. -/
def tSNAC_setBias (s : SnacState) (bias : ℚ) : SnacState :=
  { s with biasfactor := bias }

/-- Modelled from the spec: `tSNAC_setMinRMS` stores the RMS threshold. -/
def tSNAC_setMinRMS (s : SnacState) (rms : ℚ) : SnacState :=
  { s with minrms := rms }

/-- Modelled from the spec: `tSNAC_getPeriod` is a pure reader of the
last pass's `periodlength`; the returned state is untouched. -/
def tSNAC_getPeriod (s : SnacState) : ℚ × SnacState := (s.periodlength, s)

/-- Modelled from the spec: `tSNAC_getfidelity` is a pure reader of the
last pass's `fidelity`; the returned state is untouched. -/
def tSNAC_getfidelity (s : SnacState) : ℝ × SnacState := (s.fidelity, s)

/-- Modelled from the spec: `tSNAC_init` zero-initializes the buffers and
state and installs the header defaults (`framesize = SNAC_FRAME_SIZE`,
`bias = DEFBIAS`, `minrms = DEFMINRMS`), clamping the overlap argument. -/
def tSNAC_init (overlaparg : ℤ) : SnacState :=
  { inputbuf := List.replicate SNAC_FRAME_SIZE 0
    processbuf := List.replicate SNAC_FRAME_SIZE 0
    timeindex := 0
    framesize := SNAC_FRAME_SIZE
    overlap := clampOverlap overlaparg
    periodindex := 0
    periodlength := 0
    fidelity := 0
    biasfactor := DEFBIAS
    minrms := DEFMINRMS }

/-! ## Properties of the peak search -/

theorem findFirstPeak_spec {v : ℕ → ℚ} {fl : ℚ} {last : ℕ} :
    ∀ {fuel start i : ℕ}, findFirstPeak v fl last fuel start = some i →
      start ≤ i ∧ i < last ∧ snacQualifies v fl i ∧
        ∀ j, start ≤ j → j < i → ¬ snacQualifies v fl j := by
  intro fuel
  induction fuel with
  | zero => intro start i h; simp [findFirstPeak] at h
  | succ fuel ih =>
    intro start i h
    unfold findFirstPeak at h
    by_cases hlast : last ≤ start
    · rw [if_pos hlast] at h; exact absurd h (by simp)
    · rw [if_neg hlast] at h
      by_cases hq : snacQualifies v fl start
      · rw [if_pos hq] at h
        obtain rfl : start = i := by simpa using h
        exact ⟨le_refl _, lt_of_not_le hlast, hq, fun j h1 h2 => absurd (lt_of_le_of_lt h1 h2) (lt_irrefl _)⟩
      · rw [if_neg hq] at h
        obtain ⟨h1, h2, h3, h4⟩ := ih h
        refine ⟨le_trans (Nat.le_succ start) h1, h2, h3, fun j hj1 hj2 => ?_⟩
        rcases Nat.eq_or_lt_of_le hj1 with rfl | hj1'
        · exact hq
        · exact h4 j hj1' hj2

/-! ## Cauchy–Schwarz bounds on the correlation values -/

theorem sumsq_eq_sum (xs : List ℚ) :
    sumsq xs = ∑ i ∈ Finset.range xs.length, xs.getD i 0 ^ 2 := by
  induction xs with
  | nil => simp [sumsq]
  | cons x xs ih =>
    rw [sumsq, List.length_cons, Finset.sum_range_succ']
    simp [ih, add_comm]

theorem dot_eq_sum (xs ys : List ℚ) (h : xs.length = ys.length) :
    dot xs ys = ∑ i ∈ Finset.range xs.length, xs.getD i 0 * ys.getD i 0 := by
  induction xs generalizing ys with
  | nil => simp [dot]
  | cons x xs ih =>
    cases ys with
    | nil => simp at h
    | cons y ys =>
      rw [dot, List.length_cons, Finset.sum_range_succ']
      simp only [List.getD_cons_succ, List.getD_cons_zero]
      rw [ih ys (by simpa using h)]
      exact add_comm _ _

theorem take_length_eq_drop_length (frame : List ℚ) (k : ℕ) :
    (frame.take (frame.length - k)).length = (frame.drop k).length := by
  simp [List.length_take, List.length_drop, Nat.min_eq_left (Nat.sub_le _ _)]

theorem sumprod_sq_le (frame : List ℚ) (k : ℕ) :
    sumprod frame k ^ 2 ≤ energy0 frame k * energyK frame k := by
  unfold sumprod energy0 energyK
  rw [dot_eq_sum _ _ (take_length_eq_drop_length frame k), sumsq_eq_sum, sumsq_eq_sum,
    ← take_length_eq_drop_length frame k]
  exact Finset.sum_mul_sq_le_sq_mul_sq _ _ _

theorem snacQ_le_one (frame : List ℚ) (k : ℕ) : snacQ frame k ≤ 1 := by
  unfold snacQ
  by_cases hd : energy0 frame k * energyK frame k = 0
  · rw [if_pos hd]; exact zero_le_one
  · rw [if_neg hd]
    have hdpos : 0 < energy0 frame k * energyK frame k :=
      lt_of_le_of_ne (mul_nonneg (sumsq_nonneg _) (sumsq_nonneg _)) (Ne.symm hd)
    rw [div_le_one hdpos]
    calc sumprod frame k * |sumprod frame k|
        ≤ |sumprod frame k| * |sumprod frame k| :=
          mul_le_mul_of_nonneg_right (le_abs_self _) (abs_nonneg _)
      _ = sumprod frame k ^ 2 := by rw [abs_mul_abs_self, sq]
      _ ≤ _ := sumprod_sq_le frame k

theorem snacWeight_nonneg (bias : ℚ) (n k : ℕ) : 0 ≤ snacWeight bias n k :=
  le_max_left _ _

theorem snacWeight_le_one {bias : ℚ} (hbias : 0 ≤ bias) (n k : ℕ) :
    snacWeight bias n k ≤ 1 := by
  unfold snacWeight
  rw [max_le_iff]
  refine ⟨zero_le_one, ?_⟩
  have : 0 ≤ bias * (k : ℚ) / (n : ℚ) :=
    div_nonneg (mul_nonneg hbias (Nat.cast_nonneg k)) (Nat.cast_nonneg n)
  linarith

theorem snacBiased_le_one (frame : List ℚ) {bias : ℚ} (hbias : 0 ≤ bias) (k : ℕ) :
    snacBiased frame bias k ≤ 1 := by
  unfold snacBiased
  by_cases hq : snacQ frame k ≤ 0
  · exact le_trans (mul_nonpos_of_nonneg_of_nonpos (sq_nonneg _) hq) zero_le_one
  · push_neg at hq
    have hw1 : snacWeight bias frame.length k ^ 2 ≤ 1 :=
      pow_le_one₀ (snacWeight_nonneg _ _ _) (snacWeight_le_one hbias _ _)
    exact mul_le_one₀ hw1 (le_of_lt hq) (snacQ_le_one frame k)

/-! ## Bridge between the rational encoding and the sqrt-normalized form -/

theorem snacQ_eq_acf_mul_abs (frame : List ℚ) (k : ℕ) :
    ((snacQ frame k : ℚ) : ℝ) = snacACF frame k * |snacACF frame k| := by
  unfold snacQ snacACF
  by_cases hd : energy0 frame k * energyK frame k = 0
  · have : ((energy0 frame k : ℚ) : ℝ) * ((energyK frame k : ℚ) : ℝ) = 0 := by
      exact_mod_cast congrArg (fun q : ℚ => (q : ℝ)) hd
    rw [if_pos hd, this, Real.sqrt_zero, div_zero]
    simp
  · have hdpos : 0 < energy0 frame k * energyK frame k :=
      lt_of_le_of_ne (mul_nonneg (sumsq_nonneg _) (sumsq_nonneg _)) (Ne.symm hd)
    have hDpos : (0:ℝ) < ((energy0 frame k : ℚ) : ℝ) * ((energyK frame k : ℚ) : ℝ) := by
      exact_mod_cast hdpos
    rw [if_neg hd]
    have hsq : Real.sqrt (((energy0 frame k : ℚ) : ℝ) * ((energyK frame k : ℚ) : ℝ)) *
        Real.sqrt (((energy0 frame k : ℚ) : ℝ) * ((energyK frame k : ℚ) : ℝ)) =
        ((energy0 frame k : ℚ) : ℝ) * ((energyK frame k : ℚ) : ℝ) :=
      Real.mul_self_sqrt (le_of_lt hDpos)
    rw [abs_div, abs_of_nonneg (Real.sqrt_nonneg _)]
    rw [div_mul_div_comm, hsq]
    push_cast
    ring

/-! ## Claim C1: silence guard -/

/-- Claim C1: for every tSNAC state, on a completed analysis pass whose
frame (`processbuf`) has short-term RMS below the state's `minrms`,
`tSNAC_getfidelity` returns 0 afterwards and `tSNAC_getPeriod` returns
the same value as before the pass. -/
theorem C1_snac_silence_guard (s : SnacState) (hlen : 0 < s.processbuf.length)
    (hrms : Real.sqrt ((sumsq s.processbuf : ℝ) / (s.processbuf.length : ℝ))
      < (s.minrms : ℝ)) :
    (tSNAC_getfidelity (tSNAC_analyzeframe s)).1 = 0 ∧
      (tSNAC_getPeriod (tSNAC_analyzeframe s)).1 = (tSNAC_getPeriod s).1 := by
  have hm : (0:ℝ) < (s.minrms : ℝ) := lt_of_le_of_lt (Real.sqrt_nonneg _) hrms
  rw [Real.sqrt_lt' hm] at hrms
  have hlen' : (0:ℝ) < (s.processbuf.length : ℝ) := by exact_mod_cast hlen
  rw [div_lt_iff₀ hlen'] at hrms
  have hq : sumsq s.processbuf < s.minrms ^ 2 * (s.processbuf.length : ℚ) := by
    exact_mod_cast hrms
  unfold tSNAC_analyzeframe
  rw [if_pos hq]
  exact ⟨rfl, rfl⟩

/-- A concrete silent state: one all-zero sample in the frame, default
`minrms`, an arbitrary prior period estimate. -/
def snacSilentState : SnacState :=
  { inputbuf := [0]
    processbuf := [0]
    timeindex := 0
    framesize := 1
    overlap := 1
    periodindex := 7
    periodlength := 42
    fidelity := 3
    biasfactor := DEFBIAS
    minrms := DEFMINRMS }

theorem C1_witness :
    (0 < snacSilentState.processbuf.length ∧
      Real.sqrt ((sumsq snacSilentState.processbuf : ℝ) /
          (snacSilentState.processbuf.length : ℝ)) < (snacSilentState.minrms : ℝ)) ∧
    (tSNAC_getfidelity (tSNAC_analyzeframe snacSilentState)).1 = 0 ∧
      (tSNAC_getPeriod (tSNAC_analyzeframe snacSilentState)).1 =
        (tSNAC_getPeriod snacSilentState).1 := by
  have h1 : 0 < snacSilentState.processbuf.length := by
    simp [snacSilentState]
  have h2 : Real.sqrt ((sumsq snacSilentState.processbuf : ℝ) /
      (snacSilentState.processbuf.length : ℝ)) < (snacSilentState.minrms : ℝ) := by
    norm_num [snacSilentState, sumsq, DEFMINRMS, Real.sqrt_zero]
  exact ⟨⟨h1, h2⟩, C1_snac_silence_guard snacSilentState h1 h2⟩

/-! ## Claim C2: peak selection, interpolation, fidelity -/

/-- Claim C2: on an analysis pass that passes the silence guard and finds
a peak, the selected integer index is the first local maximum of the
bias-corrected normalized autocorrelation above the fidelity floor after
lag 0 and the initial descending slope (not the global maximum);
`periodlength` is the parabolic interpolation of that index, and
`fidelity` is the peak's bias-corrected normalized-autocorrelation value,
which lies in [0, 1]. -/
theorem C2_snac_peak_selection (s : SnacState) (i : ℕ)
    (hbias : 0 ≤ s.biasfactor)
    (hloud : ¬ sumsq s.processbuf < s.minrms ^ 2 * (s.processbuf.length : ℚ))
    (hpeak : snacPeak s = some i) :
    (snacStart s ≤ i ∧ snacQualifies (snacVals s) (snacFidelityFloor ^ 2) i ∧
      ∀ j, snacStart s ≤ j → j < i → ¬ snacQualifies (snacVals s) (snacFidelityFloor ^ 2) j) ∧
    (tSNAC_analyzeframe s).periodindex = i ∧
    (tSNAC_analyzeframe s).periodlength = parabolicInterp (snacVals s) i ∧
    (tSNAC_analyzeframe s).fidelity
      = ((snacWeight s.biasfactor s.processbuf.length i : ℚ) : ℝ) * snacACF s.processbuf i ∧
    0 ≤ (tSNAC_analyzeframe s).fidelity ∧
    (tSNAC_analyzeframe s).fidelity ≤ 1 := by
  obtain ⟨hstart, hlt, hqual, hmin⟩ := findFirstPeak_spec
    (show findFirstPeak (snacVals s) (snacFidelityFloor ^ 2)
        (snacSeekLen s.processbuf.length) (snacSeekLen s.processbuf.length)
        (snacStart s) = some i from hpeak)
  have hs' : tSNAC_analyzeframe s =
      { s with periodindex := i,
               periodlength := parabolicInterp (snacVals s) i,
               fidelity := Real.sqrt (max 0 ((snacVals s i : ℚ) : ℝ)) } := by
    unfold tSNAC_analyzeframe
    rw [if_neg hloud, hpeak]
  have hv : 0 < snacVals s i := by
    have h0 : snacFidelityFloor ^ 2 = 0 := by norm_num [snacFidelityFloor]
    have h1 := hqual.1
    rwa [h0] at h1
  have hq : 0 < snacQ s.processbuf i := by
    by_contra h
    push_neg at h
    have hle : snacVals s i ≤ 0 := mul_nonpos_of_nonneg_of_nonpos (sq_nonneg _) h
    linarith
  have hw : 0 < snacWeight s.biasfactor s.processbuf.length i := by
    rcases lt_or_eq_of_le (snacWeight_nonneg s.biasfactor s.processbuf.length i) with h | h
    · exact h
    · exfalso
      have hz : snacVals s i = 0 := by
        show snacWeight s.biasfactor s.processbuf.length i ^ 2 * snacQ s.processbuf i = 0
        rw [← h]
        ring
      linarith
  have hd : energy0 s.processbuf i * energyK s.processbuf i ≠ 0 := by
    intro h
    unfold snacQ at hq
    rw [if_pos h] at hq
    exact lt_irrefl _ hq
  have hdpos : 0 < energy0 s.processbuf i * energyK s.processbuf i :=
    lt_of_le_of_ne (mul_nonneg (sumsq_nonneg _) (sumsq_nonneg _)) (Ne.symm hd)
  have hqeq : snacQ s.processbuf i = sumprod s.processbuf i * |sumprod s.processbuf i| /
      (energy0 s.processbuf i * energyK s.processbuf i) := by
    unfold snacQ
    rw [if_neg hd]
  have hsp : 0 < sumprod s.processbuf i := by
    rcases lt_trichotomy (sumprod s.processbuf i) 0 with h | h | h
    · exfalso
      have hneg : sumprod s.processbuf i * |sumprod s.processbuf i| < 0 :=
        mul_neg_of_neg_of_pos h (abs_pos.mpr (ne_of_lt h))
      have : snacQ s.processbuf i < 0 := by
        rw [hqeq]
        exact div_neg_of_neg_of_pos hneg hdpos
      linarith
    · exfalso
      rw [hqeq, h] at hq
      simp at hq
    · exact h
  have hmax : max 0 ((snacVals s i : ℚ) : ℝ) = ((snacVals s i : ℚ) : ℝ) := by
    apply max_eq_right
    exact_mod_cast le_of_lt hv
  have hDpos : (0:ℝ) < ((energy0 s.processbuf i : ℚ) : ℝ) * ((energyK s.processbuf i : ℚ) : ℝ) := by
    exact_mod_cast hdpos
  refine ⟨⟨hstart, hqual, hmin⟩, by rw [hs'], by rw [hs'], ?_, ?_, ?_⟩
  · rw [hs']
    show Real.sqrt (max 0 ((snacVals s i : ℚ) : ℝ)) = _
    rw [hmax]
    have hveq : snacVals s i = snacWeight s.biasfactor s.processbuf.length i ^ 2 *
        (sumprod s.processbuf i * |sumprod s.processbuf i| /
          (energy0 s.processbuf i * energyK s.processbuf i)) := by
      show snacWeight s.biasfactor s.processbuf.length i ^ 2 * snacQ s.processbuf i = _
      rw [hqeq]
    have hcast : ((snacVals s i : ℚ) : ℝ)
        = (((snacWeight s.biasfactor s.processbuf.length i : ℚ) : ℝ) *
            ((sumprod s.processbuf i : ℚ) : ℝ)) ^ 2 /
          (((energy0 s.processbuf i : ℚ) : ℝ) * ((energyK s.processbuf i : ℚ) : ℝ)) := by
      rw [hveq, abs_of_pos hsp]
      push_cast
      ring
    rw [hcast, Real.sqrt_div' _ (le_of_lt hDpos),
      Real.sqrt_sq (mul_nonneg (by exact_mod_cast le_of_lt hw) (by exact_mod_cast le_of_lt hsp))]
    unfold snacACF
    ring
  · rw [hs']
    exact Real.sqrt_nonneg _
  · rw [hs']
    show Real.sqrt (max 0 ((snacVals s i : ℚ) : ℝ)) ≤ 1
    have hle : snacVals s i ≤ 1 := snacBiased_le_one s.processbuf hbias i
    have h1 : max 0 ((snacVals s i : ℚ) : ℝ) ≤ 1 := by
      apply max_le zero_le_one
      exact_mod_cast hle
    calc Real.sqrt (max 0 ((snacVals s i : ℚ) : ℝ)) ≤ Real.sqrt 1 := Real.sqrt_le_sqrt h1
      _ = 1 := Real.sqrt_one

/-- A concrete loud periodic frame (period 2) for exercising the full
analysis pass. -/
def snacDemoState : SnacState :=
  { inputbuf := [1, -1, 1, -1, 1]
    processbuf := [1, -1, 1, -1, 1]
    timeindex := 0
    framesize := 5
    overlap := 1
    periodindex := 0
    periodlength := 0
    fidelity := 0
    biasfactor := DEFBIAS
    minrms := DEFMINRMS }

theorem C2_witness :
    (0 ≤ snacDemoState.biasfactor ∧
      ¬ sumsq snacDemoState.processbuf <
          snacDemoState.minrms ^ 2 * (snacDemoState.processbuf.length : ℚ) ∧
      snacPeak snacDemoState = some 2) ∧
    (tSNAC_analyzeframe snacDemoState).periodindex = 2 := by
  have h1 : 0 ≤ snacDemoState.biasfactor := by
    norm_num [snacDemoState, DEFBIAS]
  have h2 : ¬ sumsq snacDemoState.processbuf <
      snacDemoState.minrms ^ 2 * (snacDemoState.processbuf.length : ℚ) := by
    norm_num [snacDemoState, DEFMINRMS, sumsq]
  have h3 : snacPeak snacDemoState = some 2 := by
    norm_num [snacPeak, snacStart, snacSeekLen, findFirstPeak, skipDescent, snacQualifies,
      snacVals, snacDemoState, snacFidelityFloor, DEFBIAS, snacBiased, snacWeight, snacQ,
      energy0, energyK, sumprod, sumsq, dot]
  exact ⟨⟨h1, h2, h3⟩, (C2_snac_peak_selection snacDemoState 2 h1 h2 h3).2.1⟩

/-! ## Claim C3: normalized autocorrelation form and seek cap -/

/-- Claim C3: the correlation values the analysis pass computes encode
exactly the normalized autocorrelation
`r(k) = Σ x[i]x[i+k] / sqrt(Σx[i]² · Σx[i+k]²)` (the exact-rational model
stores the order-isomorphic value `r(k)·|r(k)|`), the search range
`snacSeekLen` is capped by `framesize · SEEK` with `SEEK = 0.85`, and no
lag greater than `framesize · SEEK` is ever selected as the period. -/
theorem C3_snac_acf_normalized_and_capped :
    (∀ (frame : List ℚ) (k : ℕ),
        ((snacQ frame k : ℚ) : ℝ) = snacACF frame k * |snacACF frame k|) ∧
    (∀ (frame : List ℚ) (k : ℕ),
        snacACF frame k = (dot (frame.take (frame.length - k)) (frame.drop k) : ℝ) /
          Real.sqrt ((sumsq (frame.take (frame.length - k)) : ℝ) *
            (sumsq (frame.drop k) : ℝ))) ∧
    (∀ n : ℕ, ((snacSeekLen n : ℕ) : ℚ) ≤ 17/20 * (n : ℚ)) ∧
    (∀ s : SnacState, (tSNAC_analyzeframe s).periodindex = s.periodindex ∨
        ((tSNAC_analyzeframe s).periodindex : ℚ) ≤ 17/20 * (s.processbuf.length : ℚ)) := by
  have hseek : ∀ n : ℕ, ((snacSeekLen n : ℕ) : ℚ) ≤ 17/20 * (n : ℚ) := by
    intro n
    calc ((snacSeekLen n : ℕ) : ℚ) ≤ ((n * 17 : ℕ) : ℚ) / ((20 : ℕ) : ℚ) := Nat.cast_div_le
      _ = 17/20 * (n : ℚ) := by push_cast; ring
  refine ⟨fun frame k => snacQ_eq_acf_mul_abs frame k, fun frame k => rfl, hseek, fun s => ?_⟩
  by_cases hsil : sumsq s.processbuf < s.minrms ^ 2 * (s.processbuf.length : ℚ)
  · left
    unfold tSNAC_analyzeframe
    rw [if_pos hsil]
  · rcases hfp : snacPeak s with _ | i
    · left
      unfold tSNAC_analyzeframe
      rw [if_neg hsil, hfp]
    · right
      obtain ⟨-, hlt, -, -⟩ := findFirstPeak_spec
        (show findFirstPeak (snacVals s) (snacFidelityFloor ^ 2)
            (snacSeekLen s.processbuf.length) (snacSeekLen s.processbuf.length)
            (snacStart s) = some i from hfp)
      have hpp : (tSNAC_analyzeframe s).periodindex = i := by
        unfold tSNAC_analyzeframe
        rw [if_neg hsil, hfp]
      rw [hpp]
      calc (i : ℚ) ≤ ((snacSeekLen s.processbuf.length : ℕ) : ℚ) := by
            exact_mod_cast le_of_lt hlt
        _ ≤ 17/20 * (s.processbuf.length : ℚ) := hseek _

/-! ## Phase-accumulator oscillators (tCycle / tPhasor; bodies absent) -/

/-- State of the phase-accumulator oscillators (`_tCycle` / `_tPhasor`,
leaf-oscillators.h): current phase, increment and stored frequency. -/
structure POsc where
  phase : ℚ
  inc : ℚ
  freq : ℚ

/-- Modelled from the spec: initialisation starts the phase at 0 and
derives `inc = freq / sampleRate` (`tCycle_init` / `tPhasor_init` bodies
are absent from src/). -/
def pOsc_init (freq sampleRate : ℚ) : POsc :=
  { phase := 0, inc := freq / sampleRate, freq := freq }

/-- Modelled from the spec: re-initialisation writes every field anew;
nothing of the prior state survives. -/
def pOsc_reinit (_old : POsc) (freq sampleRate : ℚ) : POsc :=
  { phase := 0, inc := freq / sampleRate, freq := freq }

/-- Modelled from the spec: one tick advances the phase by `inc`,
wrapping into [0, 1). -/
def pOsc_step (o : POsc) : POsc := { o with phase := Int.fract (o.phase + o.inc) }

/-- The oscillator state after `n` ticks. -/
def pOsc_run (o : POsc) : ℕ → POsc
  | 0 => o
  | n + 1 => pOsc_step (pOsc_run o n)

/-- Modelled from the spec: the sample emitted by the `n`-th tick is a
pure waveform shaping (wavetable lookup for `tCycle_tick`, identity for
`tPhasor_tick`) of the accumulated phase. -/
def pOsc_outSeq (wave : ℚ → ℚ) (o : POsc) (n : ℕ) : ℚ :=
  wave (pOsc_run o (n + 1)).phase

theorem fract_fract_add (a b : ℚ) : Int.fract (Int.fract a + b) = Int.fract (a + b) := by
  have h : Int.fract a + b = a + b + ((-⌊a⌋ : ℤ) : ℚ) := by
    rw [Int.fract]
    push_cast
    ring
  rw [h, Int.fract_add_int]

theorem pOsc_run_inc (o : POsc) (n : ℕ) : (pOsc_run o n).inc = o.inc := by
  induction n with
  | zero => rfl
  | succ n ih => simpa [pOsc_run, pOsc_step] using ih

theorem pOsc_run_phase (freq sampleRate : ℚ) (n : ℕ) :
    (pOsc_run (pOsc_init freq sampleRate) n).phase
      = Int.fract ((n : ℚ) * (freq / sampleRate)) := by
  induction n with
  | zero => simp [pOsc_run, pOsc_init]
  | succ n ih =>
    show (pOsc_step (pOsc_run (pOsc_init freq sampleRate) n)).phase = _
    rw [pOsc_step]
    simp only [pOsc_run_inc]
    rw [ih]
    show Int.fract (Int.fract _ + (pOsc_init freq sampleRate).inc) = _
    rw [pOsc_init]
    rw [fract_fract_add]
    congr 1
    push_cast
    ring

/-! ## Claim C5: periodicity and reproducibility -/

/-- Claim C5: at constant positive frequency with no sync, the tick
output sequence is periodic with period `sampleRate/freq` samples
(stated for an integer number `N` of samples per cycle), and
re-initialising with the same frequency reproduces the identical output
sequence from phase 0. -/
theorem C5_osc_periodic_and_reproducible (wave : ℚ → ℚ) (freq sampleRate : ℚ) (N : ℕ)
    (hfreq : 0 < freq) (hN : (N : ℚ) * freq = sampleRate) :
    (∀ n, pOsc_outSeq wave (pOsc_init freq sampleRate) (n + N)
        = pOsc_outSeq wave (pOsc_init freq sampleRate) n) ∧
    (∀ (old : POsc) (n : ℕ),
        pOsc_outSeq wave (pOsc_reinit old freq sampleRate) n
          = pOsc_outSeq wave (pOsc_init freq sampleRate) n) := by
  refine ⟨?_, fun _ _ => rfl⟩
  intro n
  rcases Nat.eq_zero_or_pos N with rfl | hNpos
  · rfl
  · have hsr : sampleRate ≠ 0 := by
      rw [← hN]
      exact ne_of_gt (mul_pos (by exact_mod_cast hNpos) hfreq)
    have hNinc : (N : ℚ) * (freq / sampleRate) = 1 := by
      have h : (N : ℚ) * (freq / sampleRate) = ((N : ℚ) * freq) / sampleRate := by ring
      rw [h, hN, div_self hsr]
    unfold pOsc_outSeq
    rw [pOsc_run_phase, pOsc_run_phase]
    congr 1
    have hsplit : ((n + N + 1 : ℕ) : ℚ) * (freq / sampleRate)
        = ((n + 1 : ℕ) : ℚ) * (freq / sampleRate) + (N : ℚ) * (freq / sampleRate) := by
      push_cast
      ring
    rw [hsplit, hNinc, Int.fract_add_one]

theorem C5_witness :
    ((0:ℚ) < 1 ∧ ((4:ℕ) : ℚ) * 1 = 4) ∧
    pOsc_outSeq id (pOsc_init 1 4) (1 + 4) = pOsc_outSeq id (pOsc_init 1 4) 1 := by
  have h1 : (0:ℚ) < 1 := by norm_num
  have h2 : ((4:ℕ) : ℚ) * 1 = 4 := by norm_num
  exact ⟨⟨h1, h2⟩, (C5_osc_periodic_and_reproducible id 1 4 4 h1 h2).1 1⟩

/-! ## Envelope followers and their setters (bodies absent) -/

/-- State of struct `_tEnvelopeFollower` (leaf-analysis.h). -/
structure EnvelopeFollowerState where
  y : ℚ
  a_thresh : ℚ
  d_coeff : ℚ

/-- State of struct `_tPowerFollower` (leaf-analysis.h). -/
structure PowerFollowerState where
  factor : ℚ
  oneminusfactor : ℚ
  curr : ℚ

/-- Modelled from the spec: `tEnvelopeFollower_decayCoeff` rejects an
argument outside [0,1] with status 0 and the prior state unchanged;
otherwise it stores the coefficient and returns status 1. -/
def tEnvelopeFollower_decayCoeff (e : EnvelopeFollowerState) (decayCoeff : ℚ) :
    ℤ × EnvelopeFollowerState :=
  if 0 ≤ decayCoeff ∧ decayCoeff ≤ 1 then (1, { e with d_coeff := decayCoeff })
  else (0, e)

/-- Modelled from the spec: `tEnvelopeFollower_attackThresh` rejects an
argument outside [0,1] with status 0 and the prior state unchanged;
otherwise it stores the threshold and returns status 1. -/
def tEnvelopeFollower_attackThresh (e : EnvelopeFollowerState) (attackThresh : ℚ) :
    ℤ × EnvelopeFollowerState :=
  if 0 ≤ attackThresh ∧ attackThresh ≤ 1 then (1, { e with a_thresh := attackThresh })
  else (0, e)

/-- Modelled from the spec: `tPowerFollower_setFactor` rejects an
argument outside [0,1] with status 0 and the prior state unchanged;
otherwise it stores the factor (with its cached complement
`oneminusfactor`) and returns status 1. -/
def tPowerFollower_setFactor (p : PowerFollowerState) (factor : ℚ) :
    ℤ × PowerFollowerState :=
  if 0 ≤ factor ∧ factor ≤ 1 then
    (1, { p with factor := factor, oneminusfactor := 1 - factor })
  else (0, p)

/-! ## Claim C6: setter rejection semantics -/

/-- Claim C6: for any argument outside [0,1] the three fallible setters
return status 0 and leave every field of the state exactly as it was;
for arguments inside [0,1] they return status 1 and update only the
targeted parameter (`tPowerFollower_setFactor` also refreshes the cached
complement `oneminusfactor`, leaving `curr` untouched). -/
theorem C6_setters_reject_out_of_range (e : EnvelopeFollowerState)
    (p : PowerFollowerState) (v : ℚ) :
    (¬ (0 ≤ v ∧ v ≤ 1) →
      tEnvelopeFollower_decayCoeff e v = (0, e) ∧
      tEnvelopeFollower_attackThresh e v = (0, e) ∧
      tPowerFollower_setFactor p v = (0, p)) ∧
    ((0 ≤ v ∧ v ≤ 1) →
      tEnvelopeFollower_decayCoeff e v = (1, { e with d_coeff := v }) ∧
      tEnvelopeFollower_attackThresh e v = (1, { e with a_thresh := v }) ∧
      tPowerFollower_setFactor p v
        = (1, { p with factor := v, oneminusfactor := 1 - v })) := by
  constructor
  · intro h
    refine ⟨?_, ?_, ?_⟩
    · unfold tEnvelopeFollower_decayCoeff
      rw [if_neg h]
    · unfold tEnvelopeFollower_attackThresh
      rw [if_neg h]
    · unfold tPowerFollower_setFactor
      rw [if_neg h]
  · intro h
    refine ⟨?_, ?_, ?_⟩
    · unfold tEnvelopeFollower_decayCoeff
      rw [if_pos h]
    · unfold tEnvelopeFollower_attackThresh
      rw [if_pos h]
    · unfold tPowerFollower_setFactor
      rw [if_pos h]

/-- A concrete follower state for the witness. -/
def envFollowerDemo : EnvelopeFollowerState :=
  { y := 0, a_thresh := 1/2, d_coeff := 1/2 }

/-- A concrete power-follower state for the witness. -/
def powerFollowerDemo : PowerFollowerState :=
  { factor := 1/2, oneminusfactor := 1/2, curr := 3 }

theorem C6_witness :
    (¬ (0 ≤ (2:ℚ) ∧ (2:ℚ) ≤ 1) ∧
      tEnvelopeFollower_decayCoeff envFollowerDemo 2 = (0, envFollowerDemo)) ∧
    ((0 ≤ (1/4:ℚ) ∧ (1/4:ℚ) ≤ 1) ∧
      tPowerFollower_setFactor powerFollowerDemo (1/4)
        = (1, { powerFollowerDemo with factor := 1/4, oneminusfactor := 1 - 1/4 })) := by
  have h2 : ¬ (0 ≤ (2:ℚ) ∧ (2:ℚ) ≤ 1) := by norm_num
  have h4 : 0 ≤ (1/4:ℚ) ∧ (1/4:ℚ) ≤ 1 := by norm_num
  exact ⟨⟨h2, ((C6_setters_reject_out_of_range envFollowerDemo powerFollowerDemo 2).1 h2).1⟩,
    ⟨h4, ((C6_setters_reject_out_of_range envFollowerDemo powerFollowerDemo (1/4)).2 h4).2.2⟩⟩

/-! ## Claim C7: overlap clamping -/

/-- Claim C7: after `tSNAC_setOverlap` (and after `tSNAC_init`) with any
integer argument, the stored overlap lies in `[1, MAXOVERLAP]`: values
below 1 clamp to 1, values above `MAXOVERLAP` clamp to `MAXOVERLAP`, and
in-range values are stored as given; `tSNAC_init` clamps identically. -/
theorem C7_overlap_clamped (s : SnacState) (lap : ℤ) :
    (1 ≤ (tSNAC_setOverlap s lap).overlap ∧ (tSNAC_setOverlap s lap).overlap ≤ MAXOVERLAP) ∧
    (lap < 1 → (tSNAC_setOverlap s lap).overlap = 1) ∧
    ((MAXOVERLAP : ℤ) < lap → (tSNAC_setOverlap s lap).overlap = MAXOVERLAP) ∧
    (1 ≤ lap → lap ≤ (MAXOVERLAP : ℤ) → ((tSNAC_setOverlap s lap).overlap : ℤ) = lap) ∧
    (tSNAC_init lap).overlap = (tSNAC_setOverlap s lap).overlap := by
  have hov : (tSNAC_setOverlap s lap).overlap = (max 1 (min lap (MAXOVERLAP : ℤ))).toNat := rfl
  have hin : (tSNAC_init lap).overlap = (max 1 (min lap (MAXOVERLAP : ℤ))).toNat := rfl
  rw [hov, hin]
  unfold MAXOVERLAP
  refine ⟨⟨?_, ?_⟩, ?_, ?_, ?_, rfl⟩ <;> omega

theorem C7_witness :
    ((40:ℤ) > 32 ∧ (tSNAC_setOverlap snacDemoState 40).overlap = MAXOVERLAP) ∧
    (tSNAC_init 40).overlap = MAXOVERLAP := by
  have h : ((32:ℕ) : ℤ) < 40 := by norm_num
  have hmax := (C7_overlap_clamped snacDemoState 40).2.2.1 (by exact_mod_cast h)
  have hini := (C7_overlap_clamped snacDemoState 40).2.2.2.2
  exact ⟨⟨by norm_num, hmax⟩, by rw [hini, hmax]⟩

/-! ## EnvPD state (struct `_tEnvPD`, leaf-analysis.h) -/

/-- State of struct `_tEnvPD` (leaf-analysis.h), float buffers modelled
as rational lists, `uint16_t` counters as naturals. -/
structure EnvPDState where
  buf : List ℚ
  x_phase : ℕ
  x_period : ℕ
  x_realperiod : ℕ
  x_npoints : ℕ
  x_result : ℚ
  x_sumbuf : List ℚ
  x_f : ℚ
  windowSize : ℕ
  hopSize : ℕ
  blockSize : ℕ
  x_allocforvs : ℕ

/-- Modelled from the spec: `tEnvPD_tick` returns the most recent
`x_result` without side effects. -/
def tEnvPD_tick (e : EnvPDState) : ℚ × EnvPDState := (e.x_result, e)

/-! ## Claim C8: pure readers -/

/-- The operations a SNAC client can perform, used to state that reader
calls may be interleaved anywhere without observable effect. -/
inductive SnacOp where
  | io : List ℚ → SnacOp
  | setOverlap : ℤ → SnacOp
  | setBias : ℚ → SnacOp
  | setMinRMS : ℚ → SnacOp
  | getPeriod : SnacOp
  | getfidelity : SnacOp

/-- Interpretation of one client operation on the SNAC state (reader
operations keep the state they return). -/
noncomputable def tSNAC_runOp (s : SnacState) : SnacOp → SnacState
  | SnacOp.io xs => tSNAC_ioSamples s xs
  | SnacOp.setOverlap lap => tSNAC_setOverlap s lap
  | SnacOp.setBias b => tSNAC_setBias s b
  | SnacOp.setMinRMS r => tSNAC_setMinRMS s r
  | SnacOp.getPeriod => (tSNAC_getPeriod s).2
  | SnacOp.getfidelity => (tSNAC_getfidelity s).2

/-- Interpretation of a whole operation trace. -/
noncomputable def tSNAC_runOps (s : SnacState) (ops : List SnacOp) : SnacState :=
  ops.foldl tSNAC_runOp s

/-- Whether an operation is one of the two pure readers. -/
def SnacOp.isReader : SnacOp → Bool
  | SnacOp.getPeriod => true
  | SnacOp.getfidelity => true
  | _ => false

/-- Claim C8: `tSNAC_getPeriod`, `tSNAC_getfidelity` and `tEnvPD_tick`
are pure readers: each returns the stored result of the last completed
pass (`periodlength`, `fidelity`, `x_result`) together with an unchanged
state, so deleting any number of reader calls from an operation trace
never changes the resulting state. -/
theorem C8_pure_readers :
    (∀ (s : SnacState) (ops : List SnacOp),
        tSNAC_runOps s ops = tSNAC_runOps s (ops.filter (fun o => ! o.isReader))) ∧
    (∀ s : SnacState, tSNAC_getPeriod s = (s.periodlength, s)) ∧
    (∀ s : SnacState, tSNAC_getfidelity s = (s.fidelity, s)) ∧
    (∀ e : EnvPDState, tEnvPD_tick e = (e.x_result, e)) := by
  refine ⟨?_, fun s => rfl, fun s => rfl, fun e => rfl⟩
  intro s ops
  induction ops generalizing s with
  | nil => rfl
  | cons op ops ih =>
    cases op <;>
      simp [tSNAC_runOps, List.foldl, List.filter, tSNAC_runOp, SnacOp.isReader,
        tSNAC_getPeriod, tSNAC_getfidelity] <;>
      exact (ih _)

/-! ## Band-limited oscillator struct layout (leaf-oscillators.h) -/

/-- Field names and declared C types of struct `_tMBPulse`, transcribed
from leaf-oscillators.h. -/
def tMBPulse_fields : List (String × String) :=
  [("mempool", "tMempool"), ("out", "float"), ("amp", "float"), ("last_amp", "float"),
   ("freq", "float"), ("waveform", "float"), ("syncin", "float"), ("syncout", "float"),
   ("_p", "float"), ("_w", "float"), ("_b", "float"), ("_x", "float"), ("_z", "float"),
   ("_f", "float[FILLEN + STEP_DD_PULSE_LENGTH]"), ("_j", "int"), ("_k", "int"),
   ("_init", "bool")]

/-- Field names and declared C types of struct `_tMBTriangle`, transcribed
from leaf-oscillators.h. -/
def tMBTriangle_fields : List (String × String) :=
  [("mempool", "tMempool"), ("out", "float"), ("amp", "float"), ("last_amp", "float"),
   ("freq", "float"), ("waveform", "float"), ("syncin", "float"), ("syncout", "float"),
   ("_p", "float"), ("_w", "float"), ("_b", "float"), ("_z", "float"),
   ("_f", "float[FILLEN + LONGEST_DD_PULSE_LENGTH]"), ("_j", "int"), ("_k", "int"),
   ("_init", "bool")]

/-- Field names and declared C types of struct `_tMBSaw`, transcribed
from leaf-oscillators.h. -/
def tMBSaw_fields : List (String × String) :=
  [("mempool", "tMempool"), ("out", "float"), ("amp", "float"), ("last_amp", "float"),
   ("freq", "float"), ("syncin", "float"), ("syncout", "float"),
   ("_p", "float"), ("_w", "float"), ("_z", "float"),
   ("_f", "float[FILLEN + STEP_DD_PULSE_LENGTH]"), ("_j", "int"),
   ("_init", "bool")]

/-! ## Claim C9: corrected — tMBSaw has no read index `_k` -/

/-- Claim C9 as stated is false on the code: struct `_tMBSaw`
(leaf-oscillators.h) declares a write index `_j` but no read/drain index
`_k`. -/
theorem C9_counterexample : ¬ ("_k" ∈ tMBSaw_fields.map Prod.fst) := by
  decide

/-- Claim C9 (amended): each of the three band-limited oscillator states
owns a correction-impulse accumulation buffer `_f` of length `FILLEN`
plus a discontinuity-kernel length (`STEP_DD_PULSE_LENGTH` for
`_tMBPulse` and `_tMBSaw`, `LONGEST_DD_PULSE_LENGTH` for `_tMBTriangle`)
and a write index `_j`; `_tMBPulse` and `_tMBTriangle` additionally own
a separate read/drain index `_k`, but `_tMBSaw` owns no `_k` field. -/
theorem C9_mb_struct_layout :
    (("_f", "float[FILLEN + STEP_DD_PULSE_LENGTH]") ∈ tMBPulse_fields ∧
      ("_j", "int") ∈ tMBPulse_fields ∧ ("_k", "int") ∈ tMBPulse_fields) ∧
    (("_f", "float[FILLEN + LONGEST_DD_PULSE_LENGTH]") ∈ tMBTriangle_fields ∧
      ("_j", "int") ∈ tMBTriangle_fields ∧ ("_k", "int") ∈ tMBTriangle_fields) ∧
    (("_f", "float[FILLEN + STEP_DD_PULSE_LENGTH]") ∈ tMBSaw_fields ∧
      ("_j", "int") ∈ tMBSaw_fields ∧ ¬ ("_k" ∈ tMBSaw_fields.map Prod.fst)) := by
  decide

/-! ## Claim C10: EnvPD fixed capacity caps the window size -/

/-- Capacity of the in-struct sample buffer of `_tEnvPD`:
`float buf[ENV_WINDOW_SIZE + INITVSTAKEN]` (leaf-analysis.h). -/
def envPDBufCapacity : ℕ := ENV_WINDOW_SIZE + INITVSTAKEN

/-- Field names and declared C types of struct `_tEnvPD`, transcribed
from leaf-analysis.h. -/
def tEnvPD_fields : List (String × String) :=
  [("buf", "float[ENV_WINDOW_SIZE + INITVSTAKEN]"), ("x_phase", "uint16_t"),
   ("x_period", "uint16_t"), ("x_realperiod", "uint16_t"), ("x_npoints", "uint16_t"),
   ("x_result", "float"), ("x_sumbuf", "float[MAXOVERLAP]"), ("x_f", "float"),
   ("windowSize", "uint16_t"), ("hopSize", "uint16_t"), ("blockSize", "uint16_t"),
   ("x_allocforvs", "uint16_t")]

/-- Modelled from the spec: `tEnvPD_processBlock` needs `windowSize`
samples of history plus a per-block allowance sized to the larger of
hop/block and never below the `INITVSTAKEN` silence padding; all its
buffer accesses stay in bounds iff this requirement fits the fixed
in-struct capacity. -/
def envPDAccessesInBounds (windowSize hopSize blockSize : ℕ) : Prop :=
  windowSize + max (max hopSize blockSize) INITVSTAKEN ≤ envPDBufCapacity

/-- Claim C10: the `_tEnvPD` sample buffer is a fixed in-struct array of
exactly `ENV_WINDOW_SIZE + INITVSTAKEN = 1088` floats, every geometry
counter is a 16-bit unsigned integer, and the buffer accesses of
`tEnvPD_processBlock` stay in bounds only when
`windowSize ≤ ENV_WINDOW_SIZE = 1024` (and do fit for such window sizes
under standard hop/block sizes): the configurable geometry is capped by
the compile-time capacity. -/
theorem C10_envpd_capacity_cap :
    envPDBufCapacity = 1088 ∧
    (("buf", "float[ENV_WINDOW_SIZE + INITVSTAKEN]") ∈ tEnvPD_fields ∧
      ∀ nm, nm ∈ ["x_phase", "x_period", "x_realperiod", "x_npoints",
          "windowSize", "hopSize", "blockSize"] → (nm, "uint16_t") ∈ tEnvPD_fields) ∧
    (∀ ws hs bs, envPDAccessesInBounds ws hs bs → ws ≤ ENV_WINDOW_SIZE) ∧
    (∀ ws hs bs, ws ≤ ENV_WINDOW_SIZE → hs ≤ INITVSTAKEN → bs ≤ INITVSTAKEN →
      envPDAccessesInBounds ws hs bs) := by
  refine ⟨by decide, ⟨by decide, by decide⟩, ?_, ?_⟩
  · intro ws hs bs h
    have h64 : INITVSTAKEN ≤ max (max hs bs) INITVSTAKEN := le_max_right _ _
    unfold envPDAccessesInBounds envPDBufCapacity ENV_WINDOW_SIZE INITVSTAKEN at *
    omega
  · intro ws hs bs hws hhs hbs
    have hm : max (max hs bs) INITVSTAKEN ≤ INITVSTAKEN :=
      max_le (max_le (le_trans hhs (le_refl _)) hbs) (le_refl _)
    unfold envPDAccessesInBounds envPDBufCapacity at *
    unfold ENV_WINDOW_SIZE INITVSTAKEN at *
    omega

theorem C10_witness :
    (envPDAccessesInBounds 1024 64 64 ∧ 1024 ≤ ENV_WINDOW_SIZE) ∧
    ("x_phase", "uint16_t") ∈ tEnvPD_fields := by
  have hfit : envPDAccessesInBounds 1024 64 64 :=
    (C10_envpd_capacity_cap.2.2.2) 1024 64 64 (by decide) (by decide) (by decide)
  have hcap : 1024 ≤ ENV_WINDOW_SIZE :=
    (C10_envpd_capacity_cap.2.2.1) 1024 64 64 hfit
  exact ⟨⟨hfit, hcap⟩, C10_envpd_capacity_cap.2.1.2 "x_phase" (by decide)⟩
